import Mathlib

/-!
Verification of the incremental metadata-enrichment pipeline of the
`theframe` repository (`src/tools.py` and the `errors` pass of
`src/main.py`).

The Python code manipulates JSON dictionaries.  We embed a painting
record (`Entry`) as a structure of optional fields, and a JSON mapping
(`Dict`) as an association list of key/entry pairs with Python-dict
semantics: lookup returns the first matching pair, assignment replaces
the value in place when the key is present and appends otherwise, and
`\x7b**a, **b\x7d` folds the pairs of `b` into `a` left to right.
Network effects (HTTP HEAD probes, the AI chat call) are passed in as
oracle functions, so one run of `populate` is a pure function of its
file contents and oracles.
-/

/-- One painting record, as stored in the JSON files.  Fields the
pipeline never touches are gathered in `extra` so that frame properties
("nothing else changed") can be stated. -/

-- # Definitions: shallow embedding of the pipeline

structure Entry where
  name : Option String := none
  title : Option String := none
  author : Option String := none
  style : Option String := none
  year : Option String := none
  century : Option String := none
  location : Option String := none
  wikipedia_url : Option String := none
  languages : List (String × List (String × String)) := []
  number : Option Int := none
  filename : Option String := none
  bg_url : Option String := none
  image_url : Option String := none
  extra : List (String × String) := []
deriving Repr, DecidableEq

/-- A JSON mapping (Python `dict`), as an insertion-ordered association list. -/

abbrev Dict := List (String × Entry)

/-- Python truthiness of an optional string: `None` and `""` are falsy. -/

def truthyStr : Option String → Bool
  | none => false
  | some s => !s.isEmpty

/-- Python dict lookup `d.get(k)`: first pair whose key matches. -/

def dictGet : Dict → String → Option Entry
  | [], _ => none
  | p :: rest, k => if p.1 = k then some p.2 else dictGet rest k

/-- Python dict assignment `d[k] = v`: replace in place when the key is
present, append otherwise. -/

def dictInsert (d : Dict) (k : String) (v : Entry) : Dict :=
  if (dictGet d k).isSome then d.map (fun p => if p.1 = k then (k, v) else p)
  else d ++ [(k, v)]

/-- Python `\x7b**a, **b\x7d`: fold the pairs of `b` into `a`. -/

def dictUnion (a b : Dict) : Dict :=
  b.foldl (fun acc p => dictInsert acc p.1 p.2) a

/-- The keys of a mapping, in order. -/

def dictKeys (d : Dict) : List String := d.map (·.1)

/-- Key uniqueness, as guaranteed for any mapping read from a JSON file. -/

def NoDupKeys (d : Dict) : Prop := (dictKeys d).Nodup

instance decNoDupKeys (d : Dict) : Decidable (NoDupKeys d) :=
  List.nodupDecidable (dictKeys d)

/-- Truthiness of `completed.get(key, \x7b\x7d).get("bg_url")` in the fold step. -/

def bgTruthy : Option Entry → Bool
  | none => false
  | some e => truthyStr e.bg_url

/-- The fold step of `populate` (src/tools.py lines 558-562): delete from
the increment `n` every key whose `completed` entry has a truthy
`bg_url`, then merge `\x7b**completed, **n\x7d`. -/

def foldStep (completed n : Dict) : Dict :=
  dictUnion completed (n.filter (fun p => !bgTruthy (dictGet completed p.1)))

-- ## Lookup lemmas for the dict model

inductive HeadResult where
  | status (code : Nat)
  | requestError
deriving Repr, DecidableEq

/-- `url_exists` (src/tools.py lines 446-456): `True` exactly when the
HEAD request returns status 200; every `RequestException` is caught and
yields `False`.  The HEAD transport is the oracle `head`. -/

def url_exists (head : String → HeadResult) (url : String) : Bool :=
  match head url with
  | .status code => code == 200
  | .requestError => false

-- ## Slug/filename codec

/-- Modelled from the spec: diacritic stripping performed by the
external `python-slugify` library ("lowercase, strip diacritics,
replace runs of non-alphanumeric characters with a single hyphen, trim
leading/trailing hyphens").  Common Latin diacritics are mapped to
their base letter. -/

def deaccent (c : Char) : Char :=
  match c with
  | 'á' | 'à' | 'â' | 'ä' | 'ã' | 'å' | 'Á' | 'À' | 'Â' | 'Ä' | 'Ã' | 'Å' => 'a'
  | 'é' | 'è' | 'ê' | 'ë' | 'É' | 'È' | 'Ê' | 'Ë' => 'e'
  | 'í' | 'ì' | 'î' | 'ï' | 'Í' | 'Ì' | 'Î' | 'Ï' => 'i'
  | 'ó' | 'ò' | 'ô' | 'ö' | 'õ' | 'Ó' | 'Ò' | 'Ô' | 'Ö' | 'Õ' => 'o'
  | 'ú' | 'ù' | 'û' | 'ü' | 'Ú' | 'Ù' | 'Û' | 'Ü' => 'u'
  | 'ñ' | 'Ñ' => 'n'
  | 'ç' | 'Ç' => 'c'
  | _ => c

/-- One character of the slug: lowercased base letter when
alphanumeric, a hyphen placeholder otherwise. -/

def slugChar (c : Char) : Char :=
  let c := (deaccent c).toLower
  if c.isAlphanum then c else '-'

/-- Collapse runs of hyphens to a single hyphen. -/

def collapseHyphens : List Char → List Char
  | [] => []
  | [c] => [c]
  | a :: b :: rest =>
      if a = '-' && b = '-' then collapseHyphens (b :: rest)
      else a :: collapseHyphens (b :: rest)

/-- Modelled from the spec: the external `python-slugify` `slugify`
function — lowercase, strip diacritics, replace runs of
non-alphanumeric characters with a single hyphen, trim leading and
trailing hyphens. -/

def slugify (s : String) : String :=
  let l := s.data.map slugChar
  let l := collapseHyphens l
  let l := l.dropWhile (· = '-')
  let l := (l.reverse.dropWhile (· = '-')).reverse
  String.mk l

/-- Python `str.zfill`: left-pad with zeros to the requested width,
keeping a leading sign character in front of the padding. -/

def zfill (s : String) (w : Nat) : String :=
  if w ≤ s.length then s
  else if s.data.head? = some '-' ∨ s.data.head? = some '+' then
    String.mk (s.data.take 1 ++ (List.replicate (w - s.length) '0' ++ s.data.drop 1))
  else String.mk (List.replicate (w - s.length) '0' ++ s.data)

/-- The filename built for an enriched record (src/tools.py lines
635-637): zero-padded number, slugified author, slugified title. -/

def makeFilename (number : Int) (author title : String) : String :=
  zfill (toString number) 4 ++ "-" ++ slugify author ++ "-" ++ slugify title ++ ".jpg"

-- ## Sequence-number assignment (src/tools.py `get_next_number`)

/-- Python `max(l, default=d)`. -/

def pyMax (l : List Int) (d : Int) : Int :=
  match l with
  | [] => d
  | x :: xs => xs.foldl max x

/-- The integer `number` fields present among the values of a mapping
(`isinstance(v.get("number"), int)` filter). -/

def entryNumbers (d : Dict) : List Int :=
  (d.map (·.2)).filterMap (·.number)

/-- `get_next_number` (src/tools.py lines 459-464). -/

def getNextNumber (d : Dict) (i : Nat) : Int :=
  pyMax (entryNumbers d) 0 + (i : Int) + 1

-- ## One run of `populate` (src/tools.py lines 467-678)

/-- Truthiness of the Python `filename` field. -/

def filenameTruthy (e : Entry) : Bool := truthyStr e.filename

/-- The fold performed on loading: absent or unparseable increment file
behaves as no increment at all. -/

def postFold (mainD : Dict) (incr : Option Dict) : Dict :=
  match incr with
  | none => mainD
  | some n => foldStep mainD n

/-- `updated` after the load phase: set exactly when the increment file
parsed to a non-empty mapping (`if n:` on line 555, before any key is
deleted from it). -/

def foldUpdated (incr : Option Dict) : Bool :=
  match incr with
  | none => false
  | some n => !n.isEmpty

/-- The per-entry effect of the backfill scan (src/tools.py lines
580-591): the deprecated `image_url` field is deleted, and `bg_url` is
set when it is `None`, `filename` is truthy, and the probe succeeds.
The boolean records whether `bg_url` was set (`updated`). -/

def backfillEntry (probe : String → Bool) (base_url : String) (e : Entry) : Entry × Bool :=
  let e1 : Entry := { e with image_url := none }
  if e1.bg_url.isNone && filenameTruthy e1 then
    let url := base_url ++ "/" ++ e1.filename.getD ""
    if probe url then ({ e1 with bg_url := some url }, true) else (e1, false)
  else (e1, false)

/-- The backfill scan over the whole collection, in place,
returning the mutated collection and whether any `bg_url` was set. -/

def backfillStep (probe : String → Bool) (base_url : String) (d : Dict) : Dict × Bool :=
  (d.map (fun p => (p.1, (backfillEntry probe base_url p.2).1)),
   d.any (fun p => (backfillEntry probe base_url p.2).2))

/-- The ingestion branch (src/tools.py lines 573-578): each raw stub is
registered under the synthetic key `new-<slug(name)>` with only its
title. -/

def ingestStep (completed : Dict) (paintings : List Entry) : Dict :=
  paintings.foldl
    (fun acc p =>
      let title := p.name.getD "Unknown"
      dictInsert acc ("new-" ++ slugify title) { title := some title })
    completed

/-- One enrichment attempt (the `try` body of src/tools.py lines
618-648) for the pending item at offset `i`.  The `enrich` oracle is
the chat call plus JSON parse of its reply; `none` covers every failure
caught by the `except` clauses (transport error, unparseable reply —
and a reply without `author`/`title` makes `slugify` raise, which the
generic `except` also catches).  On success the answer gains `number`,
`filename` and `bg_url` and is keyed by its filename. -/

def enrichOne (completed : Dict) (probe : String → Bool)
    (enrich : String → Option Entry) (base_url : String)
    (i : Nat) (painting : Entry) : Option (String × Entry) :=
  match enrich (painting.name.getD "Unknown") with
  | none => none
  | some answer =>
    match answer.author, answer.title with
    | some au, some ti =>
      let num := getNextNumber completed i
      let fn := makeFilename num au ti
      let url := base_url ++ "/" ++ fn
      some (fn, { answer with
        number := some num
        filename := some fn
        bg_url := if probe url then some url else none })
    | _, _ => none

/-- The successful enrichments, each tagged with its pending offset
(`processed_indices` entries and the `newdata` insertions, in order). -/

def enrichResults (completed : Dict) (probe : String → Bool)
    (enrich : String → Option Entry) (base_url : String)
    (pending : List Entry) : List (Nat × String × Entry) :=
  pending.enum.filterMap
    (fun p => (enrichOne completed probe enrich base_url p.1 p.2).map (fun r => (p.1, r)))

/-- Everything one run of `populate` does that is visible outside:
the returned collection, whether the pending file was read, the titles
sent to the enrichment API, and the contents written to the pending and
completed-increment files (`none` when the file is not written). -/

structure PopResult where
  result : Dict
  pendingRead : Bool
  enrichCalls : List String
  pendingWritten : Option (List Entry)
  incrementWritten : Option Dict
deriving Repr, DecidableEq

/-- One run of `populate` (src/tools.py lines 467-678) as a pure
function of the parsed file contents and the network oracles.
`mainD` is the parsed destination file (absent/unparseable → empty),
`incr` the parsed completed-increment file (`none` when absent or
unparseable), `paintings` the raw stubs passed by the caller,
`pendingFile` the parsed pending file.  The list `pending` of line 567
is built from entry references, so the copy persisted at line 667
carries the backfill scan's in-place `image_url` deletions; it is
computed here from the post-backfill collection, which agrees with the
source because the enrichment branch is only reached when no `bg_url`
was set. -/

def runPopulate (mainD : Dict) (incr : Option Dict) (paintings : List Entry)
    (pendingFile : List Entry) (head : String → HeadResult)
    (enrich : String → Option Entry) (base_url : String) : PopResult :=
  let completed0 := postFold mainD incr
  if paintings.isEmpty then
    let bf := backfillStep (url_exists head) base_url completed0
    if foldUpdated incr || bf.2 then
      { result := bf.1, pendingRead := false, enrichCalls := [],
        pendingWritten := none, incrementWritten := none }
    else
      let results := enrichResults bf.1 (url_exists head) enrich base_url pendingFile
      let processed := results.map (·.1)
      let newdata := results.foldl (fun acc r => dictInsert acc r.2.1 r.2.2) []
      let pendingVar := (bf.1.map (·.2)).filter (fun e => e.bg_url.isSome)
      if processed.isEmpty then
        { result := bf.1, pendingRead := true,
          enrichCalls := pendingFile.map (fun p => p.name.getD "Unknown"),
          pendingWritten := none, incrementWritten := none }
      else
        { result := bf.1, pendingRead := true,
          enrichCalls := pendingFile.map (fun p => p.name.getD "Unknown"),
          pendingWritten := some (processed.reverse.foldl
            (fun acc i => if i < acc.length then acc.eraseIdx i else acc) pendingVar),
          incrementWritten := some newdata }
  else
    { result := ingestStep completed0 paintings, pendingRead := false,
      enrichCalls := [], pendingWritten := none, incrementWritten := none }

-- ## C8: the existence prober

/-- C8: `url_exists` returns a boolean and never raises — it is `true`
iff the HEAD request yields HTTP status 200; any request exception or
non-200 status yields `false`. -/

def exCompleted : Dict :=
  [("0005-x-y.jpg",
    { number := some 5, filename := some "0005-x-y.jpg", bg_url := some "http://b/0005-x-y.jpg" })]

def exPending : List Entry := [{ name := some "Goya - Saturno" }, { name := some "B" }]

def exEnrich : String → Option Entry :=
  fun t => some { author := some "A", title := some t }

/-- Witness for `sequence_numbers`: with highest existing number 5 and a
batch of two stubs that both enrich, the new numbers are 6 and 7. -/

def stubA : Entry := { name := some "A" }

/-- Stub whose enrichment fails in the failing run for C1. -/

def stubB : Entry := { name := some "B" }

/-- Enrichment oracle: item "A" succeeds, item "B" fails (simulated
transport error). -/

def enrichAB : String → Option Entry :=
  fun t => if t = "A" then some { author := some "Au", title := some "Ti" } else none

/-- C1 evaluated at the failing input (main empty, increment absent,
pending = [A, B], A enriches, B fails): the code persists the
list built on line 567 of src/tools.py from the completed entries that
carry a `bg_url` (here the empty list) instead of the pending list with
the consumed item removed, so the failed stub B is dropped from the
pending file instead of being kept.  (The other half of the claim holds:
no number is consumed for B — the written increment holds only A's
entry, numbered 1.) -/

def errorsAssigned (populated : Dict) : List (Option Int) :=
  (((populated.map (·.2)).filter filenameTruthy).map (·.number)).dedup

/-- The numbers reported as "Missing painting" (src/main.py lines
284-286): `set(range(1, len(numbers) + 1)) - numbers`. -/

def errorsMissing (populated : Dict) : List Nat :=
  ((List.range (errorsAssigned populated).length).map (· + 1)).filter
    (fun m => !((errorsAssigned populated).contains (some (m : Int))))

/-- C6 (amended: the reported range is `1..k` where `k` is the count of
distinct `number` values — a possible null included — among entries with
a truthy filename, not `1..max`): a number is reported as missing
exactly when it lies in `1..k` and is assigned to no entry; in
particular a collection numbered 1, 2, 4 reports exactly painting 3. -/

-- # Theorems

theorem dictGet_nil (k : String) : dictGet [] k = none := rfl

theorem dictGet_cons (p : String × Entry) (d : Dict) (k : String) :
    dictGet (p :: d) k = if p.1 = k then some p.2 else dictGet d k := rfl

theorem dictGet_eq_none_of_not_mem {d : Dict} {k : String}
    (h : k ∉ dictKeys d) : dictGet d k = none := by
  induction d with
  | nil => rfl
  | cons p rest ih =>
    simp only [dictKeys, List.map_cons, List.mem_cons, not_or] at h
    have hne : p.1 ≠ k := fun hc => h.1 hc.symm
    simp only [dictGet, if_neg hne, ih (by simpa [dictKeys] using h.2)]

theorem mem_of_dictGet_eq_some {d : Dict} {k : String} {v : Entry}
    (h : dictGet d k = some v) : (k, v) ∈ d := by
  induction d with
  | nil => simp [dictGet] at h
  | cons p rest ih =>
    simp only [dictGet] at h
    by_cases hk : p.1 = k
    · rw [if_pos hk] at h
      refine List.mem_cons.mpr (Or.inl ?_)
      cases p
      simp_all
    · rw [if_neg hk] at h
      exact List.mem_cons_of_mem _ (ih h)

theorem dictGet_eq_some_of_mem {d : Dict} {k : String} {v : Entry}
    (hd : NoDupKeys d) (h : (k, v) ∈ d) : dictGet d k = some v := by
  induction d with
  | nil => simp at h
  | cons p rest ih =>
    simp only [NoDupKeys, dictKeys, List.map_cons, List.nodup_cons] at hd
    rcases List.mem_cons.mp h with h1 | h1
    · simp [dictGet, ← h1]
    · have hk : p.1 ≠ k := by
        intro hc
        exact hd.1 (hc ▸ (List.mem_map.mpr ⟨(k, v), h1, rfl⟩))
      simp only [dictGet, if_neg hk]
      exact ih hd.2 h1

theorem dictGet_map_replace_of_isSome {d : Dict} {k : String} (v : Entry)
    (h : (dictGet d k).isSome) :
    dictGet (d.map (fun p => if p.1 = k then (k, v) else p)) k = some v := by
  induction d with
  | nil => simp [dictGet] at h
  | cons p rest ih =>
    by_cases hk : p.1 = k
    · simp [dictGet, hk]
    · simp only [dictGet, if_neg hk] at h
      simp only [List.map_cons, if_neg hk, dictGet_cons, if_neg hk]
      exact ih h

theorem dictGet_map_replace_ne (d : Dict) {k k' : String} (v : Entry)
    (h : k' ≠ k) :
    dictGet (d.map (fun p => if p.1 = k then (k, v) else p)) k' = dictGet d k' := by
  induction d with
  | nil => rfl
  | cons p rest ih =>
    by_cases hk : p.1 = k
    · have h1 : ¬(k = k') := fun hc => h hc.symm
      simp only [List.map_cons, if_pos hk, dictGet_cons, if_neg h1, ih]
      rw [if_neg (hk ▸ h1)]
    · simp only [List.map_cons, if_neg hk, dictGet_cons, ih]

theorem dictGet_append_single_self {d : Dict} {k : String} (v : Entry)
    (h : dictGet d k = none) : dictGet (d ++ [(k, v)]) k = some v := by
  induction d with
  | nil => simp [dictGet]
  | cons p rest ih =>
    simp only [dictGet] at h
    by_cases hk : p.1 = k
    · simp [hk] at h
    · simp only [List.cons_append, dictGet_cons, if_neg hk]
      exact ih (by simpa [hk] using h)

theorem dictGet_append_single_ne (d : Dict) {k k' : String} (v : Entry)
    (h : k' ≠ k) : dictGet (d ++ [(k, v)]) k' = dictGet d k' := by
  induction d with
  | nil =>
    have h1 : ¬(k = k') := fun hc => h hc.symm
    simp [dictGet, h1]
  | cons p rest ih =>
    simp only [List.cons_append, dictGet_cons, ih]

theorem dictGet_dictInsert_self (d : Dict) (k : String) (v : Entry) :
    dictGet (dictInsert d k v) k = some v := by
  unfold dictInsert
  by_cases h : (dictGet d k).isSome
  · rw [if_pos h]
    exact dictGet_map_replace_of_isSome v h
  · rw [if_neg h]
    exact dictGet_append_single_self v (by simpa using h)

theorem dictGet_dictInsert_ne (d : Dict) {k k' : String} (v : Entry)
    (h : k' ≠ k) : dictGet (dictInsert d k v) k' = dictGet d k' := by
  unfold dictInsert
  by_cases hs : (dictGet d k).isSome
  · rw [if_pos hs]
    exact dictGet_map_replace_ne d v h
  · rw [if_neg hs]
    exact dictGet_append_single_ne d v h

theorem isSome_dictGet_of_mem_keys {d : Dict} {k : String}
    (h : k ∈ dictKeys d) : (dictGet d k).isSome := by
  induction d with
  | nil => simp [dictKeys] at h
  | cons p rest ih =>
    by_cases hk : p.1 = k
    · simp [dictGet, hk]
    · simp only [dictKeys, List.map_cons, List.mem_cons] at h
      rcases h with h | h
    
      · exact absurd h.symm hk
      · simp only [dictGet, if_neg hk]
        exact ih h

theorem not_mem_keys_of_dictGet_eq_none {d : Dict} {k : String}
    (h : dictGet d k = none) : k ∉ dictKeys d := by
  intro hmem
  have := isSome_dictGet_of_mem_keys hmem
  rw [h] at this
  simp at this

theorem dictKeys_dictInsert_of_isSome {d : Dict} {k : String} (v : Entry)
    (h : (dictGet d k).isSome) : dictKeys (dictInsert d k v) = dictKeys d := by
  unfold dictInsert
  rw [if_pos h]
  unfold dictKeys
  rw [List.map_map]
  apply List.map_congr_left
  intro p _
  by_cases hk : p.1 = k
  · simp [hk]
  · simp [hk]

theorem dictKeys_dictInsert_of_none {d : Dict} {k : String} (v : Entry)
    (h : ¬(dictGet d k).isSome) : dictKeys (dictInsert d k v) = dictKeys d ++ [k] := by
  unfold dictInsert
  rw [if_neg h]
  simp [dictKeys]

theorem noDupKeys_dictInsert {d : Dict} (k : String) (v : Entry)
    (hd : NoDupKeys d) : NoDupKeys (dictInsert d k v) := by
  by_cases h : (dictGet d k).isSome
  · unfold NoDupKeys
    rw [dictKeys_dictInsert_of_isSome v h]
    exact hd
  · unfold NoDupKeys
    rw [dictKeys_dictInsert_of_none v h]
    have hk : k ∉ dictKeys d :=
      not_mem_keys_of_dictGet_eq_none (by simpa using h)
    have hd' : (dictKeys d).Nodup := hd
    simp [List.nodup_append, hk, hd']

theorem dictUnion_nil (a : Dict) : dictUnion a [] = a := rfl

theorem dictUnion_cons (a : Dict) (p : String × Entry) (b : Dict) :
    dictUnion a (p :: b) = dictUnion (dictInsert a p.1 p.2) b := rfl

theorem noDupKeys_dictUnion {a : Dict} (b : Dict) (ha : NoDupKeys a) :
    NoDupKeys (dictUnion a b) := by
  induction b generalizing a with
  | nil => exact ha
  | cons p rest ih =>
    rw [dictUnion_cons]
    exact ih (noDupKeys_dictInsert p.1 p.2 ha)

theorem dictGet_dictUnion_of_none (a : Dict) {b : Dict} {k : String}
    (h : dictGet b k = none) : dictGet (dictUnion a b) k = dictGet a k := by
  induction b generalizing a with
  | nil => rfl
  | cons p rest ih =>
    simp only [dictGet] at h
    by_cases hk : p.1 = k
    · simp [hk] at h
    · rw [if_neg hk] at h
      rw [dictUnion_cons, ih _ h, dictGet_dictInsert_ne _ _ (fun hc => hk hc.symm)]

theorem dictGet_dictUnion_of_some (a : Dict) {b : Dict} {k : String} {v : Entry}
    (hb : NoDupKeys b) (h : dictGet b k = some v) :
    dictGet (dictUnion a b) k = some v := by
  induction b generalizing a with
  | nil => simp [dictGet] at h
  | cons p rest ih =>
    simp only [NoDupKeys, dictKeys, List.map_cons, List.nodup_cons] at hb
    simp only [dictGet] at h
    by_cases hk : p.1 = k
    · rw [if_pos hk] at h
      have hrest : dictGet rest k = none := by
        apply dictGet_eq_none_of_not_mem
        rw [← hk]
        exact hb.1
      rw [dictUnion_cons, dictGet_dictUnion_of_none _ hrest]
      have : dictInsert a p.1 p.2 = dictInsert a k v := by rw [hk, Option.some_inj.mp h]
      rw [this, dictGet_dictInsert_self]
    · rw [if_neg hk] at h
      rw [dictUnion_cons]
      exact ih _ hb.2 h

theorem dictInsert_of_dictGet_eq {d : Dict} {k : String} {v : Entry}
    (hd : NoDupKeys d) (h : dictGet d k = some v) : dictInsert d k v = d := by
  unfold dictInsert
  rw [if_pos (by simp [h])]
  have : ∀ p ∈ d, (if p.1 = k then (k, v) else p) = p := by
    intro p hp
    by_cases hk : p.1 = k
    · rw [if_pos hk]
      have hpkv : (k, p.2) ∈ d := by
        rcases p with ⟨pk, pv⟩
        simpa [← hk] using hp
      have := dictGet_eq_some_of_mem hd hpkv
      rw [h] at this
      have hv : p.2 = v := by simpa using this.symm
      rcases p with ⟨pk, pv⟩
      simp only at hk hv
      rw [hk, hv]
    · rw [if_neg hk]
  rw [List.map_congr_left this]
  simp

theorem dictUnion_eq_self {a : Dict} {b : Dict} (ha : NoDupKeys a)
    (h : ∀ p ∈ b, dictGet a p.1 = some p.2) : dictUnion a b = a := by
  induction b with
  | nil => rfl
  | cons p rest ih =>
    rw [dictUnion_cons, dictInsert_of_dictGet_eq ha (h p (List.mem_cons_self p rest))]
    exact ih (fun q hq => h q (List.mem_cons_of_mem p hq))

theorem dictGet_filter_key (d : Dict) (pred : String → Bool) (k : String) :
    dictGet (d.filter (fun p => pred p.1)) k
      = if pred k then dictGet d k else none := by
  induction d with
  | nil => simp [dictGet]
  | cons p rest ih =>
    rw [List.filter_cons]
    by_cases hk : p.1 = k
    · subst hk
      by_cases hp : pred p.1
      · simp [hp, dictGet]
      · simp only [hp]
        simp only [Bool.false_eq_true, if_false, ih]
        simp [hp]
    · by_cases hp : pred p.1
      · simp only [hp, if_true, dictGet_cons, if_neg hk, ih]
      · simp only [hp, Bool.false_eq_true, if_false, ih, dictGet_cons, if_neg hk]

theorem noDupKeys_filter (d : Dict) (f : String × Entry → Bool)
    (hd : NoDupKeys d) : NoDupKeys (d.filter f) := by
  unfold NoDupKeys dictKeys at *
  exact List.Nodup.sublist ((List.filter_sublist d).map _) hd

-- ## C2: pointwise behaviour of the fold step

/-- C2 (amended: "non-null `bg_url`" must be read as "non-null and
non-empty", i.e. Python-truthy): for each key of the increment, if the
main entry's `bg_url` is truthy the main entry is kept, otherwise the
increment entry overwrites or creates the main entry; keys absent from
the increment are unchanged. -/

theorem foldStep_pointwise (M I : Dict) (hI : NoDupKeys I) (k : String) :
    (bgTruthy (dictGet M k) = true →
      dictGet (foldStep M I) k = dictGet M k) ∧
    (bgTruthy (dictGet M k) = false → k ∈ dictKeys I →
      dictGet (foldStep M I) k = dictGet I k) ∧
    (k ∉ dictKeys I → dictGet (foldStep M I) k = dictGet M k) := by
  unfold foldStep
  have hfk := dictGet_filter_key I (fun s => !bgTruthy (dictGet M s)) k
  refine ⟨?_, ?_, ?_⟩
  · intro hb
    apply dictGet_dictUnion_of_none
    rw [hfk, hb]
    simp
  · intro hb hk
    have hv := isSome_dictGet_of_mem_keys hk
    rcases Option.isSome_iff_exists.mp hv with ⟨v, hv⟩
    rw [hv]
    apply dictGet_dictUnion_of_some _ (noDupKeys_filter I _ hI)
    rw [hfk, hb]
    simpa using hv
  · intro hk
    apply dictGet_dictUnion_of_none
    rw [hfk, dictGet_eq_none_of_not_mem hk]
    simp

/-- Witness for `foldStep_pointwise` at a concrete main collection and
increment. -/

theorem foldStep_pointwise_witness :
    NoDupKeys [("a", { title := some "t2" : Entry })] ∧
    ((bgTruthy (dictGet [("a", { title := some "t1", bg_url := some "u" : Entry })] "a") = true →
      dictGet (foldStep [("a", { title := some "t1", bg_url := some "u" : Entry })]
        [("a", { title := some "t2" : Entry })]) "a"
        = dictGet [("a", { title := some "t1", bg_url := some "u" : Entry })] "a") ∧
    (bgTruthy (dictGet [("a", { title := some "t1", bg_url := some "u" : Entry })] "a") = false →
      "a" ∈ dictKeys [("a", { title := some "t2" : Entry })] →
      dictGet (foldStep [("a", { title := some "t1", bg_url := some "u" : Entry })]
        [("a", { title := some "t2" : Entry })]) "a"
        = dictGet [("a", { title := some "t2" : Entry })] "a") ∧
    ("a" ∉ dictKeys [("a", { title := some "t2" : Entry })] →
      dictGet (foldStep [("a", { title := some "t1", bg_url := some "u" : Entry })]
        [("a", { title := some "t2" : Entry })]) "a"
        = dictGet [("a", { title := some "t1", bg_url := some "u" : Entry })] "a")) :=
  ⟨by decide,
   foldStep_pointwise [("a", { title := some "t1", bg_url := some "u" })]
     [("a", { title := some "t2" })] (by decide) "a"⟩

/-- Counterexample to C2 as stated: a main entry whose `bg_url` is the
empty string is non-null, yet the increment copy overwrites it, because
the code tests Python truthiness, not nullness. -/

theorem foldStep_nonnull_counterexample :
    (dictGet [("a", { title := some "t1", bg_url := some "" : Entry })] "a").isSome = true ∧
    ((dictGet [("a", { title := some "t1", bg_url := some "" : Entry })] "a").bind (·.bg_url)
      = some "") ∧
    dictGet (foldStep [("a", { title := some "t1", bg_url := some "" : Entry })]
        [("a", { title := some "t2" : Entry })]) "a"
      = some { title := some "t2" } ∧
    ({ title := some "t2" : Entry } ≠ { title := some "t1", bg_url := some "" : Entry }) := by
  decide

-- ## C3: idempotence of the fold step

/-- C3: the fold step is idempotent — folding the same increment twice
yields the same main collection as folding it once. -/

theorem foldStep_idempotent (M I : Dict) (hM : NoDupKeys M) (hI : NoDupKeys I) :
    foldStep (foldStep M I) I = foldStep M I := by
  have hM' : NoDupKeys (foldStep M I) := noDupKeys_dictUnion _ hM
  have hI1 : NoDupKeys (I.filter (fun p => !bgTruthy (dictGet M p.1))) :=
    noDupKeys_filter I _ hI
  have key : ∀ k, bgTruthy (dictGet M k) = true →
      dictGet (foldStep M I) k = dictGet M k := by
    intro k hb
    apply dictGet_dictUnion_of_none
    have h1 := dictGet_filter_key I (fun s => !bgTruthy (dictGet M s)) k
    rw [h1, hb]
    simp
  show dictUnion (foldStep M I)
      (I.filter (fun p => !bgTruthy (dictGet (foldStep M I) p.1))) = foldStep M I
  apply dictUnion_eq_self hM'
  intro p hp
  rcases List.mem_filter.mp hp with ⟨hpI, hp2⟩
  by_cases hb : bgTruthy (dictGet M p.1)
  · exfalso
    rw [key p.1 hb, hb] at hp2
    simp at hp2
  · have hmem : p ∈ I.filter (fun q => !bgTruthy (dictGet M q.1)) :=
      List.mem_filter.mpr ⟨hpI, by simp [hb]⟩
    have hget : dictGet (I.filter (fun q => !bgTruthy (dictGet M q.1))) p.1 = some p.2 := by
      have hm2 : (p.1, p.2) ∈ I.filter (fun q => !bgTruthy (dictGet M q.1)) := by
        rcases p with ⟨pk, pv⟩
        exact hmem
      exact dictGet_eq_some_of_mem hI1 hm2
    exact dictGet_dictUnion_of_some _ hI1 hget

/-- Witness for `foldStep_idempotent` at a concrete main collection and
increment. -/

theorem foldStep_idempotent_witness :
    NoDupKeys [("a", { title := some "t1", bg_url := some "u" : Entry }), ("b", { title := some "t3" : Entry })] ∧
    NoDupKeys [("a", { title := some "t2" : Entry }), ("c", { title := some "t4" : Entry })] ∧
    foldStep (foldStep
        [("a", { title := some "t1", bg_url := some "u" : Entry }), ("b", { title := some "t3" : Entry })]
        [("a", { title := some "t2" : Entry }), ("c", { title := some "t4" : Entry })])
      [("a", { title := some "t2" : Entry }), ("c", { title := some "t4" : Entry })]
      = foldStep
        [("a", { title := some "t1", bg_url := some "u" : Entry }), ("b", { title := some "t3" : Entry })]
        [("a", { title := some "t2" : Entry }), ("c", { title := some "t4" : Entry })] :=
  ⟨by decide, by decide,
   foldStep_idempotent
     [("a", { title := some "t1", bg_url := some "u" }), ("b", { title := some "t3" })]
     [("a", { title := some "t2" }), ("c", { title := some "t4" })]
     (by decide) (by decide)⟩

-- ## Existence prober (src/tools.py `url_exists`)

/-- Outcome of one HTTP HEAD request (issued with redirects followed and
a 10-second timeout): either a status code, or a raised
`requests.RequestException` (network error, timeout, invalid URL). -/

theorem url_exists_iff_status_200 (head : String → HeadResult) (url : String) :
    url_exists head url = true ↔ head url = HeadResult.status 200 := by
  unfold url_exists
  cases h : head url with
  | status code => simp
  | requestError => simp

-- ## C9: the filename codec

theorem digitChar_isDigit : ∀ m : Nat, m < 10 → (Nat.digitChar m).isDigit = true := by
  decide

theorem toDigitsCore_all_digits (fuel : Nat) :
    ∀ (n : Nat) (l : List Char), (∀ c ∈ l, c.isDigit = true) →
      ∀ c ∈ Nat.toDigitsCore 10 fuel n l, c.isDigit = true := by
  induction fuel with
  | zero =>
    intro n l hl
    simpa [Nat.toDigitsCore] using hl
  | succ fuel ih =>
    intro n l hl c hc
    have hd : (Nat.digitChar (n % 10)).isDigit = true :=
      digitChar_isDigit _ (Nat.mod_lt _ (by norm_num))
    simp only [Nat.toDigitsCore] at hc
    by_cases hz : n / 10 = 0
    · rw [if_pos hz] at hc
      rcases List.mem_cons.mp hc with h | h
      · rw [h]; exact hd
      · exact hl c h
    · rw [if_neg hz] at hc
      refine ih (n / 10) (Nat.digitChar (n % 10) :: l) ?_ c hc
      intro c' hc'
      rcases List.mem_cons.mp hc' with h | h
      · rw [h]; exact hd
      · exact hl c' h

theorem repr_all_digits (m : Nat) : ∀ c ∈ (Nat.repr m).data, c.isDigit = true := by
  have : (Nat.repr m).data = Nat.toDigitsCore 10 (m + 1) m [] := rfl
  rw [this]
  exact toDigitsCore_all_digits (m + 1) m [] (by simp)

theorem isDigit_not_sign {c : Char} (h : c.isDigit = true) : ¬(c = '-' ∨ c = '+') := by
  rintro (rfl | rfl) <;> simp at h

theorem zfill_repr_of_lt (m : Nat) (hm : m < 10000) :
    (zfill (Nat.repr m) 4).length = 4 ∧
      ∀ c ∈ (zfill (Nat.repr m) 4).data, c.isDigit = true := by
  have hlen : (Nat.repr m).length ≤ 4 :=
    Nat.repr_length m 4 (by norm_num) (by norm_num [hm])
  have hdig := repr_all_digits m
  have hsign : ¬((Nat.repr m).data.head? = some '-' ∨ (Nat.repr m).data.head? = some '+') := by
    rcases hd : (Nat.repr m).data with _ | ⟨c, rest⟩
    · simp
    · have hc : c.isDigit = true := hdig c (by rw [hd]; exact List.mem_cons_self c rest)
      have := isDigit_not_sign hc
      simp only [List.head?_cons]
      rintro (h | h) <;> exact this (by simp_all)
  have hdlen : (Nat.repr m).data.length = (Nat.repr m).length := rfl
  unfold zfill
  by_cases h4 : 4 ≤ (Nat.repr m).length
  · rw [if_pos h4]
    exact ⟨le_antisymm hlen h4, hdig⟩
  · rw [if_neg h4, if_neg hsign]
    constructor
    · show (List.replicate (4 - (Nat.repr m).length) '0' ++ (Nat.repr m).data).length = 4
      simp only [List.length_append, List.length_replicate, hdlen]
      omega
    · intro c hc
      rcases List.mem_append.mp hc with h | h
      · have : c = '0' := List.eq_of_mem_replicate h
        rw [this]; rfl
      · exact hdig c h

theorem toString_intOfNat (m : Nat) : toString ((m : Nat) : Int) = Nat.repr m := rfl

/-- C9 (amended: the leading segment is the decimal number left-padded
with zeros to at least four digits; it is exactly the 4-digit zero-padded
form of the number when the number is at most 9999): for numbers between
1 and 9999 the filename equals
`<number zero-padded to 4 digits>-<slugified author>-<slugified title>.jpg`,
its leading segment has exactly 4 characters, all decimal digits, and
the construction is deterministic. -/

theorem codec_filename (n : Int) (a t : String) (h1 : 1 ≤ n) (h2 : n ≤ 9999) :
    makeFilename n a t
      = zfill (toString n) 4 ++ "-" ++ slugify a ++ "-" ++ slugify t ++ ".jpg"
    ∧ (zfill (toString n) 4).length = 4
    ∧ (∀ c ∈ (zfill (toString n) 4).data, c.isDigit = true)
    ∧ (∀ n' a' t', n = n' → a = a' → t = t' → makeFilename n a t = makeFilename n' a' t') := by
  have h0 : 0 ≤ n := by omega
  have hcast : ((n.toNat : Nat) : Int) = n := Int.toNat_of_nonneg h0
  have hrepr : toString n = Nat.repr n.toNat := by
    rw [← hcast]
    rfl
  have hlt : n.toNat < 10000 := by omega
  have hz := zfill_repr_of_lt n.toNat hlt
  refine ⟨rfl, ?_, ?_, ?_⟩
  · rw [hrepr]
    exact hz.1
  · rw [hrepr]
    exact hz.2
  · intro n' a' t' hn ha ht
    rw [hn, ha, ht]

/-- Witness for `codec_filename` at number 1, author "Francisco Goya",
title "Saturn Devouring His Son". -/

theorem codec_filename_witness :
    (1 ≤ (1 : Int) ∧ (1 : Int) ≤ 9999) ∧
    (makeFilename 1 "Francisco Goya" "Saturn Devouring His Son"
        = zfill (toString (1 : Int)) 4 ++ "-" ++ slugify "Francisco Goya" ++ "-"
          ++ slugify "Saturn Devouring His Son" ++ ".jpg"
      ∧ (zfill (toString (1 : Int)) 4).length = 4
      ∧ (∀ c ∈ (zfill (toString (1 : Int)) 4).data, c.isDigit = true)
      ∧ (∀ n' a' t', (1 : Int) = n' → "Francisco Goya" = a' →
          "Saturn Devouring His Son" = t' →
          makeFilename 1 "Francisco Goya" "Saturn Devouring His Son"
            = makeFilename n' a' t')) :=
  ⟨⟨by norm_num, by norm_num⟩,
   codec_filename 1 "Francisco Goya" "Saturn Devouring His Son" (by norm_num) (by norm_num)⟩

/-- Counterexample to C9 as stated: at number 10000 the leading segment
of the filename (the maximal hyphen-free prefix) has five characters,
not four, because `zfill` pads to a minimum width only. -/

theorem codec_leading_segment_counterexample :
    ((makeFilename 10000 "a" "b").data.takeWhile (fun c => c != '-')).length = 5
    ∧ zfill (toString (10000 : Int)) 4 = "10000" := by
  constructor
  · rfl
  · rfl

-- ## C4: sequence-number assignment

theorem le_foldl_max_init (l : List Int) (b : Int) : b ≤ l.foldl max b := by
  induction l generalizing b with
  | nil => exact le_refl b
  | cons x xs ih =>
    exact le_trans (le_max_left b x) (ih (max b x))

theorem le_foldl_max_mem {l : List Int} (b : Int) {a : Int} (h : a ∈ l) :
    a ≤ l.foldl max b := by
  induction l generalizing b with
  | nil => simp at h
  | cons x xs ih =>
    rcases List.mem_cons.mp h with h | h
    · subst h
      exact le_trans (le_max_right b a) (le_foldl_max_init xs (max b a))
    · rw [List.foldl_cons]
      exact ih (max b x) h

theorem le_pyMax {l : List Int} (d : Int) {a : Int} (h : a ∈ l) : a ≤ pyMax l d := by
  cases l with
  | nil => simp at h
  | cons x xs =>
    rcases List.mem_cons.mp h with h | h
    · subst h
      exact le_foldl_max_init xs a
    · exact le_foldl_max_mem x h

theorem enrichOne_number {completed : Dict} {probe : String → Bool}
    {enrich : String → Option Entry} {base_url : String} {i : Nat} {painting : Entry}
    {r : String × Entry}
    (h : enrichOne completed probe enrich base_url i painting = some r) :
    r.2.number = some (getNextNumber completed i) := by
  unfold enrichOne at h
  cases he : enrich (painting.name.getD "Unknown") with
  | none => rw [he] at h; simp at h
  | some answer =>
    rw [he] at h
    cases hau : answer.author with
    | none => simp [hau] at h
    | some au =>
      cases hti : answer.title with
      | none => simp [hau, hti] at h
      | some ti =>
        simp only [hau, hti] at h
        have := (Option.some_inj.mp h).symm
        rw [this]

theorem mem_enrichResults {completed : Dict} {probe : String → Bool}
    {enrich : String → Option Entry} {base_url : String} {pending : List Entry}
    {r : Nat × String × Entry}
    (h : r ∈ enrichResults completed probe enrich base_url pending) :
    ∃ p ∈ pending.enum, p.1 = r.1 ∧
      enrichOne completed probe enrich base_url p.1 p.2 = some r.2 := by
  rcases List.mem_filterMap.mp h with ⟨p, hp, hfp⟩
  refine ⟨p, hp, ?_⟩
  cases he : enrichOne completed probe enrich base_url p.1 p.2 with
  | none => rw [he] at hfp; simp at hfp
  | some x =>
    rw [he] at hfp
    simp only [Option.map_some', Option.some_inj] at hfp
    rw [← hfp]
    exact ⟨rfl, rfl⟩

theorem filterMap_map_fst {F : Nat × Entry → Option (Nat × String × Entry)}
    {l : List (Nat × Entry)}
    (h : ∀ p ∈ l, ∃ r, F p = some (p.1, r)) :
    (l.filterMap F).map (·.1) = l.map (·.1) := by
  induction l with
  | nil => rfl
  | cons p rest ih =>
    rcases h p (List.mem_cons_self p rest) with ⟨r, hr⟩
    rw [List.filterMap_cons, hr, List.map_cons, List.map_cons]
    exact congrArg _ (ih (fun q hq => h q (List.mem_cons_of_mem p hq)))

/-- C4: each successfully enriched item at offset `i` is assigned number
`max(numbers present in the collection, default 0) + i + 1`; when all
N stubs enrich successfully the N new entries receive the numbers
`max + 1, ..., max + N`, pairwise distinct and all strictly greater
than every pre-existing number. -/

theorem sequence_numbers (completed : Dict) (probe : String → Bool)
    (enrich : String → Option Entry) (base_url : String) (pending : List Entry) :
    (∀ r ∈ enrichResults completed probe enrich base_url pending,
        r.2.2.number = some (pyMax (entryNumbers completed) 0 + (r.1 : Int) + 1)) ∧
    ((∀ p ∈ pending.enum, (enrichOne completed probe enrich base_url p.1 p.2).isSome) →
      ((enrichResults completed probe enrich base_url pending).map (fun r => r.2.2.number)
          = (List.range pending.length).map
              (fun (i : Nat) => some (pyMax (entryNumbers completed) 0 + (i : Int) + 1)))
        ∧ ((enrichResults completed probe enrich base_url pending).map
            (fun r => r.2.2.number)).Nodup
        ∧ (∀ old ∈ entryNumbers completed,
            ∀ r ∈ enrichResults completed probe enrich base_url pending,
              ∀ m : Int, r.2.2.number = some m → old < m)) := by
  have hpart1 : ∀ r ∈ enrichResults completed probe enrich base_url pending,
      r.2.2.number = some (pyMax (entryNumbers completed) 0 + (r.1 : Int) + 1) := by
    intro r hr
    rcases mem_enrichResults hr with ⟨p, _, hfst, hone⟩
    have := enrichOne_number hone
    rw [this, hfst]
    rfl
  refine ⟨hpart1, fun hall => ⟨?_, ?_, ?_⟩⟩
  · have hfst : (enrichResults completed probe enrich base_url pending).map (·.1)
        = pending.enum.map (·.1) := by
      apply filterMap_map_fst
      intro p hp
      rcases Option.isSome_iff_exists.mp (hall p hp) with ⟨x, hx⟩
      exact ⟨x, by rw [hx]; rfl⟩
    have henum : pending.enum.map (·.1) = List.range pending.length :=
      List.enum_map_fst pending
    calc (enrichResults completed probe enrich base_url pending).map (fun r => r.2.2.number)
        = (enrichResults completed probe enrich base_url pending).map
            ((fun (i : Nat) => some (pyMax (entryNumbers completed) 0 + (i : Int) + 1)) ∘ (·.1)) := by
          apply List.map_congr_left
          intro r hr
          exact hpart1 r hr
      _ = ((enrichResults completed probe enrich base_url pending).map (·.1)).map
            (fun (i : Nat) => some (pyMax (entryNumbers completed) 0 + (i : Int) + 1)) := by
          rw [List.map_map]
      _ = (List.range pending.length).map
            (fun (i : Nat) => some (pyMax (entryNumbers completed) 0 + (i : Int) + 1)) := by
          rw [hfst, henum]
  · have hfst : (enrichResults completed probe enrich base_url pending).map (·.1)
        = pending.enum.map (·.1) := by
      apply filterMap_map_fst
      intro p hp
      rcases Option.isSome_iff_exists.mp (hall p hp) with ⟨x, hx⟩
      exact ⟨x, by rw [hx]; rfl⟩
    have hmapform : (enrichResults completed probe enrich base_url pending).map
          (fun r => r.2.2.number)
        = (List.range pending.length).map
            (fun (i : Nat) => some (pyMax (entryNumbers completed) 0 + (i : Int) + 1)) := by
      calc (enrichResults completed probe enrich base_url pending).map (fun r => r.2.2.number)
          = (enrichResults completed probe enrich base_url pending).map
              ((fun (i : Nat) => some (pyMax (entryNumbers completed) 0 + (i : Int) + 1)) ∘ (·.1)) := by
            apply List.map_congr_left
            intro r hr
            exact hpart1 r hr
        _ = ((enrichResults completed probe enrich base_url pending).map (·.1)).map
              (fun (i : Nat) => some (pyMax (entryNumbers completed) 0 + (i : Int) + 1)) := by
            rw [List.map_map]
        _ = (List.range pending.length).map
              (fun (i : Nat) => some (pyMax (entryNumbers completed) 0 + (i : Int) + 1)) := by
            rw [hfst, List.enum_map_fst]
    rw [hmapform]
    apply List.Nodup.map _ (List.nodup_range _)
    intro i j hij
    simp only [Option.some_inj, add_left_inj, add_right_inj, Nat.cast_inj] at hij
    exact hij
  · intro old hold r hr m hm
    have := hpart1 r hr
    rw [this] at hm
    have hmval : m = pyMax (entryNumbers completed) 0 + (r.1 : Int) + 1 :=
      (Option.some_inj.mp hm).symm
    have hle : old ≤ pyMax (entryNumbers completed) 0 := le_pyMax 0 hold
    have hnn : (0 : Int) ≤ (r.1 : Int) := Int.ofNat_nonneg r.1
    omega

-- ## Backfill scan lemmas

theorem dictGet_backfillStep (probe : String → Bool) (base_url : String)
    (d : Dict) (k : String) :
    dictGet ((backfillStep probe base_url d).1) k
      = (dictGet d k).map (fun e => (backfillEntry probe base_url e).1) := by
  induction d with
  | nil => rfl
  | cons p rest ih =>
    show dictGet ((p.1, (backfillEntry probe base_url p.2).1)
        :: rest.map (fun q => (q.1, (backfillEntry probe base_url q.2).1))) k = _
    rw [dictGet_cons, dictGet_cons]
    by_cases hk : p.1 = k
    · simp [hk]
    · simp only [if_neg hk]
      exact ih

theorem backfillEntry_of_candidate (probe : String → Bool) (base_url : String)
    {e : Entry} {f : String} (hf : e.filename = some f) (hfne : f ≠ "")
    (hbg : e.bg_url = none) (hurl : probe (base_url ++ "/" ++ f) = true) :
    backfillEntry probe base_url e
      = ({ e with image_url := none, bg_url := some (base_url ++ "/" ++ f) }, true) := by
  unfold backfillEntry filenameTruthy truthyStr
  have hne : f.isEmpty = false := by
    rcases hie : f.isEmpty with _ | _
    · rfl
    · exact absurd ((String.isEmpty_iff f).mp hie) hfne
  simp only [hbg, hf, Option.isNone_none, hne, Bool.not_false, Bool.and_self, if_true,
    Option.getD_some, hurl]

/-- C5 (amended: "`filename` set" must be read as "set to a non-empty
string", i.e. Python-truthy): with no raw stubs, if the collection after
the fold has an entry with a truthy filename, no `bg_url`, and a probe
that succeeds, then the run performs the backfill (setting `bg_url` on
that entry, next to the unconditional `image_url` removal) and
terminates without reading the pending file or calling the enricher. -/

theorem backfill_priority (mainD : Dict) (incr : Option Dict) (pendingFile : List Entry)
    (head : String → HeadResult) (enrich : String → Option Entry) (base_url : String)
    (k : String) (e : Entry) (f : String)
    (hk : dictGet (postFold mainD incr) k = some e)
    (hf : e.filename = some f) (hfne : f ≠ "")
    (hbg : e.bg_url = none)
    (hurl : url_exists head (base_url ++ "/" ++ f) = true) :
    (runPopulate mainD incr [] pendingFile head enrich base_url).pendingRead = false
    ∧ (runPopulate mainD incr [] pendingFile head enrich base_url).enrichCalls = []
    ∧ (runPopulate mainD incr [] pendingFile head enrich base_url).pendingWritten = none
    ∧ dictGet (runPopulate mainD incr [] pendingFile head enrich base_url).result k
        = some { e with image_url := none, bg_url := some (base_url ++ "/" ++ f) } := by
  have hbf := backfillEntry_of_candidate (url_exists head) base_url hf hfne hbg hurl
  have hany : (backfillStep (url_exists head) base_url (postFold mainD incr)).2 = true := by
    apply List.any_eq_true.mpr
    exact ⟨(k, e), mem_of_dictGet_eq_some hk, by rw [hbf]⟩
  have hrun : runPopulate mainD incr [] pendingFile head enrich base_url
      = { result := (backfillStep (url_exists head) base_url (postFold mainD incr)).1,
          pendingRead := false, enrichCalls := [],
          pendingWritten := none, incrementWritten := none } := by
    unfold runPopulate
    simp only [List.isEmpty_nil, if_true, hany, Bool.or_true]
  rw [hrun]
  refine ⟨rfl, rfl, rfl, ?_⟩
  rw [dictGet_backfillStep, hk, Option.map_some', hbf]

/-- Witness for `backfill_priority`. -/

theorem backfill_priority_witness :
    (dictGet (postFold [("0001-a-b.jpg",
          { filename := some "0001-a-b.jpg" : Entry })] none) "0001-a-b.jpg"
        = some { filename := some "0001-a-b.jpg" }
      ∧ ({ filename := some "0001-a-b.jpg" : Entry }).filename = some "0001-a-b.jpg"
      ∧ "0001-a-b.jpg" ≠ ""
      ∧ ({ filename := some "0001-a-b.jpg" : Entry }).bg_url = none
      ∧ url_exists (fun _ => HeadResult.status 200) ("http://b" ++ "/" ++ "0001-a-b.jpg") = true)
    ∧ ((runPopulate [("0001-a-b.jpg", { filename := some "0001-a-b.jpg" })] none []
          [] (fun _ => HeadResult.status 200) (fun _ => none) "http://b").pendingRead = false
      ∧ (runPopulate [("0001-a-b.jpg", { filename := some "0001-a-b.jpg" })] none []
          [] (fun _ => HeadResult.status 200) (fun _ => none) "http://b").enrichCalls = []
      ∧ (runPopulate [("0001-a-b.jpg", { filename := some "0001-a-b.jpg" })] none []
          [] (fun _ => HeadResult.status 200) (fun _ => none) "http://b").pendingWritten = none
      ∧ dictGet (runPopulate [("0001-a-b.jpg", { filename := some "0001-a-b.jpg" })] none []
            [] (fun _ => HeadResult.status 200) (fun _ => none) "http://b").result "0001-a-b.jpg"
          = some { ({ filename := some "0001-a-b.jpg" : Entry }) with
              image_url := none, bg_url := some ("http://b" ++ "/" ++ "0001-a-b.jpg") }) :=
  ⟨⟨by decide, by decide, by decide, by decide, by decide⟩,
   backfill_priority [("0001-a-b.jpg", { filename := some "0001-a-b.jpg" })] none []
     (fun _ => HeadResult.status 200) (fun _ => none) "http://b" "0001-a-b.jpg"
     { filename := some "0001-a-b.jpg" } "0001-a-b.jpg"
     (by decide) (by decide) (by decide) (by decide) (by decide)⟩

/-- Counterexample to C5 as stated: an entry whose `filename` is the
empty string is "set" but falsy, so the code skips it and proceeds to
read the pending file, although its probed URL exists. -/

theorem backfill_priority_counterexample :
    (dictGet (postFold [("k", { filename := some "" : Entry })] none) "k"
        = some { filename := some "" }
      ∧ ({ filename := some "" : Entry }).filename.isSome = true
      ∧ ({ filename := some "" : Entry }).bg_url = none
      ∧ url_exists (fun _ => HeadResult.status 200)
          ("http://b" ++ "/" ++ "") = true)
    ∧ (runPopulate [("k", { filename := some "" })] none [] []
        (fun _ => HeadResult.status 200) (fun _ => none) "http://b").pendingRead = true
    ∧ dictGet (runPopulate [("k", { filename := some "" })] none [] []
        (fun _ => HeadResult.status 200) (fun _ => none) "http://b").result "k"
        = some { filename := some "" } := by
  refine ⟨⟨by decide, by decide, by decide, by decide⟩, by decide, by decide⟩

-- ## C7: a non-empty increment suppresses the enrichment branch

/-- C7: when the completed-increment file parses to a non-empty mapping
and no raw stubs are supplied, the run returns the folded (and
backfill-scanned) collection and terminates: the pending file is never
read, no enrichment call is made, and no file is written — even when
the backfill scan set nothing. -/

theorem nonempty_increment_short_circuit (mainD n : Dict) (pendingFile : List Entry)
    (head : String → HeadResult) (enrich : String → Option Entry) (base_url : String)
    (hn : n ≠ []) :
    runPopulate mainD (some n) [] pendingFile head enrich base_url
      = { result := (backfillStep (url_exists head) base_url (foldStep mainD n)).1,
          pendingRead := false, enrichCalls := [],
          pendingWritten := none, incrementWritten := none } := by
  have hne : n.isEmpty = false := by
    rcases n with _ | ⟨p, rest⟩
    · exact absurd rfl hn
    · rfl
  unfold runPopulate
  simp only [List.isEmpty_nil, if_true, foldUpdated, hne, Bool.not_false, Bool.true_or]
  rfl

/-- Witness for `nonempty_increment_short_circuit`. -/

theorem nonempty_increment_witness :
    ([("x", { title := some "t" : Entry })] ≠ ([] : Dict))
    ∧ runPopulate [] (some [("x", { title := some "t" })]) []
        [{ name := some "P" }] (fun _ => HeadResult.requestError) (fun _ => none) "http://b"
      = { result := (backfillStep (url_exists (fun _ => HeadResult.requestError)) "http://b"
            (foldStep [] [("x", { title := some "t" })])).1,
          pendingRead := false, enrichCalls := [],
          pendingWritten := none, incrementWritten := none } :=
  ⟨by decide,
   nonempty_increment_short_circuit [] [("x", { title := some "t" })]
     [{ name := some "P" }] (fun _ => HeadResult.requestError) (fun _ => none) "http://b"
     (by decide)⟩

/-- Example collection and oracles exercising a fully successful
enrichment batch. -/

theorem sequence_numbers_witness :
    (∀ p ∈ exPending.enum, (enrichOne exCompleted (fun _ => false) exEnrich "http://b" p.1 p.2).isSome) ∧
    (((enrichResults exCompleted (fun _ => false) exEnrich "http://b" exPending).map
          (fun r => r.2.2.number)
        = (List.range exPending.length).map
            (fun (i : Nat) => some (pyMax (entryNumbers exCompleted) 0 + (i : Int) + 1)))
      ∧ ((enrichResults exCompleted (fun _ => false) exEnrich "http://b" exPending).map
          (fun r => r.2.2.number)).Nodup
      ∧ (∀ old ∈ entryNumbers exCompleted,
          ∀ r ∈ enrichResults exCompleted (fun _ => false) exEnrich "http://b" exPending,
            ∀ m : Int, r.2.2.number = some m → old < m)) :=
  ⟨by decide,
   (sequence_numbers exCompleted (fun _ => false) exEnrich "http://b" exPending).2 (by decide)⟩

-- ## C10: frame property of the backfill scan

/-- C10: the backfill scan deletes the deprecated `image_url` field from
every entry, and apart from that deletion and possibly setting `bg_url`
to the probed URL, it changes nothing: keys are preserved and every
other field of every entry is untouched. -/

theorem backfill_frame (probe : String → Bool) (base_url : String) (d : Dict) :
    (∀ k, dictGet ((backfillStep probe base_url d).1) k
        = (dictGet d k).map (fun e => (backfillEntry probe base_url e).1))
    ∧ dictKeys ((backfillStep probe base_url d).1) = dictKeys d
    ∧ (∀ e : Entry,
        ((backfillEntry probe base_url e).1).image_url = none
        ∧ ((backfillEntry probe base_url e).1).name = e.name
        ∧ ((backfillEntry probe base_url e).1).title = e.title
        ∧ ((backfillEntry probe base_url e).1).author = e.author
        ∧ ((backfillEntry probe base_url e).1).style = e.style
        ∧ ((backfillEntry probe base_url e).1).year = e.year
        ∧ ((backfillEntry probe base_url e).1).century = e.century
        ∧ ((backfillEntry probe base_url e).1).location = e.location
        ∧ ((backfillEntry probe base_url e).1).wikipedia_url = e.wikipedia_url
        ∧ ((backfillEntry probe base_url e).1).languages = e.languages
        ∧ ((backfillEntry probe base_url e).1).number = e.number
        ∧ ((backfillEntry probe base_url e).1).filename = e.filename
        ∧ ((backfillEntry probe base_url e).1).extra = e.extra
        ∧ (((backfillEntry probe base_url e).1).bg_url = e.bg_url
            ∨ ((backfillEntry probe base_url e).1).bg_url
                = some (base_url ++ "/" ++ e.filename.getD ""))) := by
  refine ⟨dictGet_backfillStep probe base_url d, ?_, ?_⟩
  · show (d.map (fun p => (p.1, (backfillEntry probe base_url p.2).1))).map (·.1)
        = d.map (·.1)
    rw [List.map_map]
    rfl
  · intro e
    unfold backfillEntry
    by_cases hc : ({ e with image_url := none } : Entry).bg_url.isNone
        && filenameTruthy { e with image_url := none }
    · rw [if_pos hc]
      by_cases hp : probe (base_url ++ "/" ++ ({ e with image_url := none } : Entry).filename.getD "")
      · rw [if_pos hp]
        refine ⟨rfl, rfl, rfl, rfl, rfl, rfl, rfl, rfl, rfl, rfl, rfl, rfl, rfl, Or.inr rfl⟩
      · rw [if_neg hp]
        refine ⟨rfl, rfl, rfl, rfl, rfl, rfl, rfl, rfl, rfl, rfl, rfl, rfl, rfl, Or.inl rfl⟩
    · rw [if_neg hc]
      refine ⟨rfl, rfl, rfl, rfl, rfl, rfl, rfl, rfl, rfl, rfl, rfl, rfl, rfl, Or.inl rfl⟩

-- ## C1: the pending file persisted by the enrichment branch

/-- Stub whose enrichment succeeds in the failing run for C1. -/

theorem pending_file_bug :
    (runPopulate [] none [] [stubA, stubB]
        (fun _ => HeadResult.requestError) enrichAB "http://b").pendingWritten = some []
    ∧ (runPopulate [] none [] [stubA, stubB]
        (fun _ => HeadResult.requestError) enrichAB "http://b").pendingWritten ≠ some [stubB]
    ∧ ((runPopulate [] none [] [stubA, stubB]
        (fun _ => HeadResult.requestError) enrichAB "http://b").incrementWritten.getD []).map
          (fun p => p.2.number) = [some 1] := by
  refine ⟨by decide, by decide, by decide⟩

-- ## C6: the missing-number report of the errors pass

/-- The set `numbers` built by the errors pass of src/main.py (lines
262-270): the `number` values (possibly `None`) of the entries that have
a truthy `filename`, without duplicates. -/

theorem errors_missing_spec :
    (∀ (populated : Dict) (m : Nat),
        m ∈ errorsMissing populated
          ↔ (1 ≤ m ∧ m ≤ (errorsAssigned populated).length
              ∧ some (m : Int) ∉ errorsAssigned populated))
    ∧ errorsMissing
        [("0001-a.jpg", { number := some 1, filename := some "0001-a.jpg" }),
         ("0002-b.jpg", { number := some 2, filename := some "0002-b.jpg" }),
         ("0004-c.jpg", { number := some 4, filename := some "0004-c.jpg" })] = [3] := by
  constructor
  · intro populated m
    unfold errorsMissing
    rw [List.mem_filter]
    simp only [List.mem_map, List.mem_range]
    have hciff : ((errorsAssigned populated).contains (some (m : Int)) = true)
        ↔ some (m : Int) ∈ errorsAssigned populated := by simp
    constructor
    · rintro ⟨⟨i, hi, him⟩, hmem⟩
      refine ⟨by omega, by omega, ?_⟩
      intro hc
      rw [Bool.not_eq_true'] at hmem
      rw [← hciff] at hc
      rw [hc] at hmem
      cases hmem
    · rintro ⟨h1, h2, h3⟩
      refine ⟨⟨m - 1, by omega, by omega⟩, ?_⟩
      rw [Bool.not_eq_true']
      rcases hcv : (errorsAssigned populated).contains (some (m : Int)) with _ | _
      · rfl
      · exact absurd (hciff.mp hcv) h3
  · decide

/-- Counterexample to C6 as stated: with assigned numbers 1 and 4, the
claim demands that 3 (a gap in `1..max`) be reported, but the code only
scans `1..len(numbers)` = 1..2 and reports exactly 2. -/

theorem errors_missing_counterexample :
    errorsMissing
        [("0001-a.jpg", { number := some 1, filename := some "0001-a.jpg" }),
         ("0004-c.jpg", { number := some 4, filename := some "0004-c.jpg" })] = [2]
    ∧ some (4 : Int) ∈ errorsAssigned
        [("0001-a.jpg", { number := some 1, filename := some "0001-a.jpg" }),
         ("0004-c.jpg", { number := some 4, filename := some "0004-c.jpg" })]
    ∧ some (3 : Int) ∉ errorsAssigned
        [("0001-a.jpg", { number := some 1, filename := some "0001-a.jpg" }),
         ("0004-c.jpg", { number := some 4, filename := some "0004-c.jpg" })]
    ∧ (3 : Nat) ∉ errorsMissing
        [("0001-a.jpg", { number := some 1, filename := some "0001-a.jpg" }),
         ("0004-c.jpg", { number := some 4, filename := some "0004-c.jpg" })] := by
  refine ⟨by decide, by decide, by decide, by decide⟩
